import Mathlib

/-!
Verification development for the `zoe` repository (`zoe/endpoint.py`).

The program is a small OpenAPI smoke-test utility: it fetches an OpenAPI
document, synthesizes GET request descriptors from the declared paths and
parameters, runs them and prints status lines.

Embedding conventions:
* Python strings are embedded as `List Char`.
* Python dictionaries coming from the parsed OpenAPI JSON are embedded as
  structures whose fields are `Option`-valued exactly where the code's
  `dict[...]` lookups can fail with a `KeyError` (`schema`, `example`,
  `parameters`, `paths`); fields the claims always populate (`in`, `name`)
  are plain fields.
* Raised Python exceptions are embedded as the `Except PyError` monad.
* `str.replace` (replace every non-overlapping occurrence, scanning left to
  right and continuing after each replacement) is embedded as `replaceAll`,
  a fuel-based structural recursion so that it evaluates by kernel reduction;
  the fuel `s.length` is always sufficient for a non-empty pattern.
-/

set_option maxRecDepth 8000

/-- The characters of a string literal, as the `List Char` embedding of a
Python `str` constant. -/
def strL (s : String) : List Char := s.data

/-- A JSON scalar value as found in an OpenAPI document (`const`, `default`,
`example` fields). -/
inductive Val where
  | vInt : Int → Val
  | vStr : List Char → Val
  | vBool : Bool → Val
  | vNull : Val
deriving DecidableEq

/-- Python's `str()` applied to a `Val`. -/
def pyStr : Val → List Char
  | .vInt n => (toString n).data
  | .vStr s => s
  | .vBool b => if b then strL "True" else strL "False"
  | .vNull => strL "None"

/-- The `schema` object of an OpenAPI parameter: the two keys the code reads,
each possibly absent. -/
structure Schema where
  const : Option Val
  default : Option Val
deriving DecidableEq

/-- An entry of an operation's `parameters` list.  `in` and `name` are the
keys the code always reads first; `schema` and `example` may be absent. -/
structure Parameter where
  «in» : List Char
  name : List Char
  schema : Option Schema
  «example» : Option Val
deriving DecidableEq

/-- A raised Python exception, as far as the code distinguishes them. -/
inductive PyError where
  | keyError : List Char → PyError
  | valueError : List Char → PyError
deriving DecidableEq

/-- The descriptor built by `obtain_get_endpoint`
(`{"url": ..., "method": ..., "data": ...}`). -/
structure EndpointDict where
  url : List Char
  method : List Char
  data : Option (List Char)
deriving DecidableEq

/-- An operation object (`api_dict` in `obtain_get_endpoint`): the code only
reads its `parameters` key, which may be absent. -/
structure Operation where
  parameters : Option (List Parameter)
deriving DecidableEq

/-- Equality of `Except` results is decidable, so concrete runs of the
embedded functions can be checked by `decide`. -/
instance {ε α : Type} [DecidableEq ε] [DecidableEq α] : DecidableEq (Except ε α) := fun x y =>
  match x, y with
  | .ok a, .ok b => if h : a = b then .isTrue (by rw [h]) else .isFalse (by simp [h])
  | .error a, .error b => if h : a = b then .isTrue (by rw [h]) else .isFalse (by simp [h])
  | .ok _, .error _ => .isFalse (by simp)
  | .error _, .ok _ => .isFalse (by simp)

/-- Fuel-based worker for `replaceAll`; with fuel at least `s.length` and a
non-empty pattern it computes Python's `s.replace(pat, rep)`. -/
def replaceAllAux : Nat → List Char → List Char → List Char → List Char
  | _, [], _, _ => []
  | 0, s, _, _ => s
  | fuel + 1, c :: s, pat, rep =>
    if pat.isPrefixOf (c :: s) && pat.length != 0 then
      rep ++ replaceAllAux fuel (List.drop (pat.length - 1) s) pat rep
    else
      c :: replaceAllAux fuel s pat rep

/-- Python's `s.replace(pat, rep)` for a non-empty pattern `pat`: replace
every non-overlapping occurrence, scanning left to right. -/
def replaceAll (s pat rep : List Char) : List Char :=
  replaceAllAux s.length s pat rep

/-- The pattern `"{" + name + "}"` built on line 92 of `endpoint.py`. -/
def placeholder (name : List Char) : List Char := '{' :: name ++ ['}']

/-- The `for parameter in api_dict["parameters"]` loop of
`obtain_get_endpoint` (lines 88-109 of `endpoint.py`), with the mutable
`api_endpoint` and `first_query_paramn` locals passed as arguments. -/
def obtain_get_endpoint_loop :
    List Char → Bool → List Parameter → Except PyError (List Char)
  | api_endpoint, _, [] => .ok api_endpoint
  | api_endpoint, first_query_paramn, parameter :: rest =>
    if parameter.«in» = strL "path" then
      match parameter.schema with
      | none => .error (.keyError (strL "schema"))
      | some sch =>
        match sch.const with
        | none => .error (.keyError (strL "const"))
        | some v =>
          obtain_get_endpoint_loop
            (replaceAll api_endpoint (placeholder parameter.name) (pyStr v))
            first_query_paramn rest
    else if parameter.«in» = strL "query" then
      let withSep := api_endpoint ++ (if first_query_paramn then ['?'] else ['&'])
      match parameter.schema with
      | none => obtain_get_endpoint_loop withSep false rest
      | some sch =>
        match sch.const with
        | some v =>
          obtain_get_endpoint_loop (withSep ++ parameter.name ++ '=' :: pyStr v) false rest
        | none =>
          match sch.default with
          | some v =>
            obtain_get_endpoint_loop (withSep ++ parameter.name ++ '=' :: pyStr v) false rest
          | none =>
            match parameter.«example» with
            | none => .error (.keyError (strL "example"))
            | some v =>
              obtain_get_endpoint_loop (withSep ++ parameter.name ++ '=' :: pyStr v) false rest
    else
      obtain_get_endpoint_loop api_endpoint first_query_paramn rest

/-- `obtain_get_endpoint` (lines 74-117 of `endpoint.py`). -/
def obtain_get_endpoint (api_endpoint : List Char) (api_dict : Operation) :
    Except PyError EndpointDict :=
  match api_dict.parameters with
  | none => .error (.keyError (strL "parameters"))
  | some params =>
    match obtain_get_endpoint_loop api_endpoint true params with
    | .error e => .error e
    | .ok url => .ok { url := url, method := strL "GET", data := none }

/-- Python's `str.lower()` on the ASCII method names the claims use. -/
def toLowerStr (s : List Char) : List Char := s.map Char.toLower

/-- `generate_endpoint_dict` (lines 120-166 of `endpoint.py`). -/
def generate_endpoint_dict (api_endpoint : List Char) (api_dict : Operation)
    (method : List Char) : Except PyError (Option EndpointDict) :=
  if toLowerStr method = strL "get" then
    match obtain_get_endpoint api_endpoint api_dict with
    | .error e => .error e
    | .ok d => .ok (some d)
  else if toLowerStr method = strL "post" then .ok none
  else if toLowerStr method = strL "patch" then .ok none
  else if toLowerStr method = strL "put" then .ok none
  else if toLowerStr method = strL "delete" then .ok none
  else .error (.valueError (strL "Invalid method: " ++ method))

/-- The whole parsed OpenAPI document: the code only reads `paths`, a mapping
from path template to a mapping from method name to operation object.  Python
dicts iterate in insertion order, so both mappings are embedded as
association lists in that order. -/
structure ApiDict where
  paths : Option (List (List Char × List (List Char × Operation)))
deriving DecidableEq

/-- `list_all_http_methods` (lines 63-71 of `endpoint.py`): the keys of one
path's method mapping, in document order. -/
def list_all_http_methods (api_path : List (List Char × Operation)) :
    List (List Char) :=
  api_path.map Prod.fst

/-- The inner `for method in path_http_methods` loop of `list_api_endpoints`
(lines 188-195 of `endpoint.py`); `acc` is the `api_endpoints` accumulator.
The `print(endpoint_dict)` side effect is not modelled. -/
def list_api_endpoints_methods_loop (api_url path : List Char)
    (acc : List (Option EndpointDict)) :
    List (List Char × Operation) → Except PyError (List (Option EndpointDict))
  | [] => .ok acc
  | (method, op) :: rest =>
    match generate_endpoint_dict (api_url ++ path) op method with
    | .error e => .error e
    | .ok d => list_api_endpoints_methods_loop api_url path (acc ++ [d]) rest

/-- The outer `for path in api_dict["paths"]` loop of `list_api_endpoints`
(lines 185-195 of `endpoint.py`). -/
def list_api_endpoints_paths_loop (api_url : List Char)
    (acc : List (Option EndpointDict)) :
    List (List Char × List (List Char × Operation)) →
    Except PyError (List (Option EndpointDict))
  | [] => .ok acc
  | (path, methods) :: rest =>
    match list_api_endpoints_methods_loop api_url path acc methods with
    | .error e => .error e
    | .ok acc2 => list_api_endpoints_paths_loop api_url acc2 rest

/-- `list_api_endpoints` (lines 169-197 of `endpoint.py`). -/
def list_api_endpoints (api_dict : ApiDict) (api_url : List Char) :
    Except PyError (List (Option EndpointDict)) :=
  match api_dict.paths with
  | none => .error (.keyError (strL "paths"))
  | some paths => list_api_endpoints_paths_loop api_url [] paths

/-- `obtain_openapi_dict` (lines 41-60 of `endpoint.py`).  The two effectful
boundaries are passed in: `http_get` models `requests.get` returning the raw
body (a raised network error propagates — it is outside the `try` block), and
`parse_json` models `contents.json()` (whose failure is caught, a diagnostic
line is produced, and the function falls off the end returning `None`).  The
result pairs the returned value with the printed diagnostic lines. -/
def obtain_openapi_dict (api_url : List Char)
    (http_get : List Char → Except PyError (List Char))
    (parse_json : List Char → Except (List Char) ApiDict) :
    Except PyError (Option ApiDict × List (List Char)) :=
  match http_get (api_url ++ strL "/openapi.json") with
  | .error e => .error e
  | .ok contents =>
    match parse_json contents with
    | .ok d => .ok (some d, [])
    | .error e => .ok (none, [strL "Error: " ++ e])

/-- The outcome of the `requests.request` call made for one descriptor in
`test_api_endpoints`, supplied by the environment: a response (status code
and formatted elapsed time), a raised `json.JSONDecodeError`, or any other
raised exception with its message. -/
inductive ReqResult where
  | success : Int → List Char → ReqResult
  | jsonDecodeError : ReqResult
  | requestError : List Char → ReqResult
deriving DecidableEq

/-- The f-string `f"Checked: {url} ({method})"` of line 228 of
`endpoint.py`, as a function of its two interpolation slots. -/
def checked_line (url method : List Char) : List Char :=
  strL "Checked: " ++ url ++ strL " (" ++ method ++ [')']

/-- The f-string of line 229 of `endpoint.py`:
`f"Status: {response.status_code} (took {elapsed_ms:.2f} ms)"`. -/
def status_line (status : Int) (elapsed : List Char) : List Char :=
  strL "Status: " ++ pyStr (.vInt status) ++ strL " (took " ++ elapsed ++ strL " ms)"

/-- The `try`/`except` body of `test_api_endpoints` for one descriptor
(lines 213-233 of `endpoint.py`), returning the printed lines.  A `None`
descriptor raises `TypeError` at `endpoint["url"]`, caught by the generic
`except Exception` handler (Python's message for it also carries quotes
around `NoneType`, elided here).  On success the code assigns
`method = endpoint["url"]` (line 226), so the URL fills both slots of the
`Checked:` line. -/
def test_api_endpoints_step (endpoint : Option EndpointDict)
    (result : ReqResult) : List (List Char) :=
  match endpoint with
  | none => [strL "Error: " ++ strL "NoneType object is not subscriptable"]
  | some e =>
    match result with
    | .success status elapsed => [checked_line e.url e.url, status_line status elapsed]
    | .jsonDecodeError => [strL "Error: Invalid JSON data"]
    | .requestError msg => [strL "Error: " ++ msg]

/-- `test_api_endpoints` (lines 200-233 of `endpoint.py`): process every
descriptor in order, each one inside its own `try`/`except`, concatenating
the printed lines.  `results n` is the environment's outcome for the `n`-th
request.  The bearer-token header only affects the outgoing request, not the
printed lines, so it does not appear here. -/
def test_api_endpoints :
    List (Option EndpointDict) → (Nat → ReqResult) → List (List Char)
  | [], _ => []
  | endpoint :: rest, results =>
    test_api_endpoints_step endpoint (results 0) ++
      test_api_endpoints rest (fun n => results (n + 1))

/-- A string with no brace character: substituting such strings can neither
destroy nor create a `\x7bname\x7d` placeholder. -/
def braceFreeB (s : List Char) : Bool :=
  s.all fun c => !(c == '{') && !(c == '}')

/-- Whether an optional schema value stringifies without braces. -/
def braceFreeVal : Option Val → Bool
  | none => true
  | some v => braceFreeB (pyStr v)

/-- A parameter all of whose contributed strings (name and stringified
values) are brace-free. -/
def cleanParam (q : Parameter) : Bool :=
  braceFreeB q.name &&
    (match q.schema with
     | none => true
     | some sch => braceFreeVal sch.const && braceFreeVal sch.default) &&
    braceFreeVal q.«example»

/-- A parameter the loop can process without raising: a path parameter must
carry `schema.const`; a query parameter must be schema-less or have a
resolvable value. -/
def okParam (q : Parameter) : Bool :=
  if q.«in» == strL "path" then
    match q.schema with
    | none => false
    | some sch => sch.const.isSome
  else if q.«in» == strL "query" then
    match q.schema with
    | none => true
    | some sch => sch.const.isSome || sch.default.isSome || q.«example».isSome
  else true

/-- A parameter that makes the `"in": "path"` branch of
`obtain_get_endpoint` raise: either its `schema` key or its `schema.const`
key is missing, so `parameter["schema"]["const"]` raises a `KeyError`. -/
def missing_const_path_param (q : Parameter) : Bool :=
  (q.«in» == strL "path") &&
    (match q.schema with
     | none => true
     | some sch => sch.const.isNone)

/-- Modelled from the spec's words (§4.2): the value a query parameter
resolves to — `schema.const` if present, else `schema.default` if present,
else the top-level `example` on the parameter object.  This is the
spec-side definition C2 compares the code against. -/
def spec_query_value (q : Parameter) : Option Val :=
  match q.schema with
  | none => none
  | some sch =>
    match sch.const with
    | some v => some v
    | none =>
      match sch.default with
      | some v => some v
      | none => q.«example»

/-- Modelled from the spec's words: the `name=value` pair of one query
parameter. -/
def spec_query_pair (q : Parameter) : List Char :=
  q.name ++ '=' :: (match spec_query_value q with | some v => pyStr v | none => [])

/-- Modelled from the spec's words (§4.2): the query string appended for a
list of query parameters in declared order — the first pair prefixed with
`?`, every subsequent one with `&`. -/
def spec_query_string (ps : List Parameter) : List Char :=
  match ps with
  | [] => []
  | q :: rest => '?' :: spec_query_pair q ++ rest.flatMap (fun r => '&' :: spec_query_pair r)

/-- Modelled from the spec's words (§4.3): the flattened sequence of
`(pathTemplate, method, operation)` jobs — every path template in the
document's own order, and under it every method key in document order. -/
def endpoint_jobs (paths : List (List Char × List (List Char × Operation))) :
    List (List Char × List Char × Operation) :=
  paths.flatMap fun pr => pr.2.map fun mo => (pr.1, mo.1, mo.2)

/-- Modelled from the spec's words (§4.3): synthesize one result per job, in
order, building the URL as `baseUrl + pathTemplate` and collecting the
result unconditionally (nulls included); a raised synthesis error aborts the
whole enumeration. -/
def spec_enumerate (api_url : List Char) :
    List (List Char × List Char × Operation) →
    Except PyError (List (Option EndpointDict))
  | [] => .ok []
  | (path, method, op) :: rest =>
    match generate_endpoint_dict (api_url ++ path) op method with
    | .error e => .error e
    | .ok d =>
      match spec_enumerate api_url rest with
      | .error e => .error e
      | .ok ds => .ok (d :: ds)

/-- `"query"` and `"path"` are different strings (used to discharge the
branch conditions of the parameter loop). -/
theorem query_ne_path : ¬ (strL "query" = strL "path") := by decide

/-- Unfolding of `braceFreeB` into the two membership facts. -/
theorem braceFreeB_not_mem {s : List Char} (h : braceFreeB s = true) :
    '{' ∉ s ∧ '}' ∉ s := by
  rw [braceFreeB, List.all_eq_true] at h
  constructor
  · intro hmem
    have := h _ hmem
    simp at this
  · intro hmem
    have := h _ hmem
    simp at this

/-- `braceFreeB` over an append. -/
theorem braceFreeB_append (a b : List Char) :
    braceFreeB (a ++ b) = (braceFreeB a && braceFreeB b) := by
  simp [braceFreeB]

/-- The query separator is brace-free. -/
theorem braceFreeB_sep (first : Bool) :
    braceFreeB (if first then ['?'] else ['&']) = true := by
  cases first <;> decide

/-- A `name=value` append is brace-free when its pieces are. -/
theorem braceFreeB_pair (sep name w : List Char)
    (hs : braceFreeB sep = true) (hn : braceFreeB name = true)
    (hw : braceFreeB w = true) :
    braceFreeB (sep ++ name ++ '=' :: w) = true := by
  simp only [braceFreeB, List.all_eq_true] at hs hn hw ⊢
  intro c hc
  rcases List.mem_append.mp hc with hc | hc
  · rcases List.mem_append.mp hc with hc | hc
    · exact hs c hc
    · exact hn c hc
  · rcases List.mem_cons.mp hc with hc | hc
    · subst hc; decide
    · exact hw c hc

/-- Splitting a list at a separator character is unique as soon as the
separator occurs neither in the second split's prefix nor its suffix. -/
theorem sep_split_unique :
    ∀ (a b u v : List Char) (c : Char), c ∉ b → c ∉ v →
      a ++ c :: u = b ++ c :: v → a = b ∧ u = v := by
  intro a b
  induction b generalizing a with
  | nil =>
    intro u v c _ hv heq
    cases a with
    | nil =>
      refine ⟨rfl, ?_⟩
      simpa using heq
    | cons a0 a' =>
      exfalso
      simp only [List.nil_append, List.cons_append, List.cons.injEq] at heq
      obtain ⟨h0, h1⟩ := heq
      apply hv
      rw [← h1]
      exact List.mem_append_right _ (List.mem_cons_self _ _)
  | cons b0 b' ih =>
    intro u v c hb hv heq
    cases a with
    | nil =>
      exfalso
      simp only [List.nil_append, List.cons_append, List.cons.injEq] at heq
      exact hb (heq.1 ▸ List.mem_cons_self _ _)
    | cons a0 a' =>
      simp only [List.cons_append, List.cons.injEq] at heq
      obtain ⟨h0, h1⟩ := heq
      have hb' : c ∉ b' := fun hm => hb (List.mem_cons_of_mem _ hm)
      obtain ⟨he, hu⟩ := ih a' u v c hb' hv h1
      exact ⟨by rw [h0, he], hu⟩

/-- A pattern starting with `\x7b` cannot occur in a string with no `\x7b`. -/
theorem not_infix_of_no_open_brace {s pt : List Char} (h : '{' ∉ s) :
    ¬ List.IsInfix ('{' :: pt) s := by
  intro hinf
  exact h (hinf.sublist.subset (List.mem_cons_self _ _))

/-- `replaceAllAux` is the identity when the pattern does not occur,
whatever the fuel. -/
theorem replaceAllAux_no_occur :
    ∀ (fuel : Nat) (s pat rep : List Char), ¬ List.IsInfix pat s →
      replaceAllAux fuel s pat rep = s := by
  intro fuel
  induction fuel with
  | zero => intro s pat rep _; cases s <;> rfl
  | succ n ih =>
    intro s pat rep h
    cases s with
    | nil => rfl
    | cons c s' =>
      have hpre : pat.isPrefixOf (c :: s') = false := by
        cases hp : pat.isPrefixOf (c :: s')
        · rfl
        · exact absurd ((List.isPrefixOf_iff_prefix.mp hp).isInfix) h
      have htail : ¬ List.IsInfix pat s' := fun hinf => h (List.infix_cons hinf)
      simp [replaceAllAux, hpre, ih s' pat rep htail]

/-- The identity case lifted to `replaceAll`. -/
theorem replaceAll_no_occur (s pat rep : List Char) (h : ¬ List.IsInfix pat s) :
    replaceAll s pat rep = s :=
  replaceAllAux_no_occur _ _ _ _ h

/-- Substitution at the unique occurrence: if the prefix `A` contains no
`\x7b` and the pattern does not occur in the suffix `R`, replacing
`'\x7b' :: pt` in `A ++ ('\x7b' :: pt) ++ R` yields `A ++ rep ++ R`. -/
theorem replaceAllAux_subst :
    ∀ (A : List Char) (fuel : Nat) (R pt rep : List Char), '{' ∉ A →
      ¬ List.IsInfix ('{' :: pt) R →
      (A ++ ('{' :: pt) ++ R).length ≤ fuel →
      replaceAllAux fuel (A ++ ('{' :: pt) ++ R) ('{' :: pt) rep = A ++ rep ++ R := by
  intro A
  induction A with
  | nil =>
    intro fuel R pt rep _ hR hlen
    cases fuel with
    | zero => simp at hlen
    | succ n =>
      have hshape : ([] : List Char) ++ ('{' :: pt) ++ R = '{' :: (pt ++ R) := by simp
      rw [hshape]
      have hpre : ('{' :: pt).isPrefixOf ('{' :: (pt ++ R)) = true := by
        apply List.isPrefixOf_iff_prefix.mpr
        have hform : '{' :: (pt ++ R) = ('{' :: pt) ++ R := by simp
        rw [hform]
        exact List.prefix_append _ _
      simp [replaceAllAux, hpre, List.drop_left,
        replaceAllAux_no_occur n R ('{' :: pt) rep hR]
  | cons a A' ih =>
    intro fuel R pt rep hA hR hlen
    cases fuel with
    | zero => simp at hlen
    | succ n =>
      have ha : ¬ (a = '{') := fun h => hA (h ▸ List.mem_cons_self _ _)
      have hshape : (a :: A') ++ ('{' :: pt) ++ R = a :: (A' ++ ('{' :: pt) ++ R) := by
        simp
      rw [hshape]
      have ha2 : ¬ ('{' = a) := fun h => ha h.symm
      have hA' : '{' ∉ A' := fun hm => hA (List.mem_cons_of_mem _ hm)
      have hlen' : (A' ++ ('{' :: pt) ++ R).length ≤ n := by
        simp only [List.length_append, List.length_cons] at hlen ⊢
        omega
      simp [replaceAllAux, ha2]
      rw [show A' ++ ('{' :: (pt ++ R)) = A' ++ ('{' :: pt) ++ R from by simp,
        ih n R pt rep hA' hR hlen', List.append_assoc]

/-- Substitution at the unique occurrence, lifted to `replaceAll`. -/
theorem replaceAll_subst (A R pt rep : List Char) (hA : '{' ∉ A)
    (hR : ¬ List.IsInfix ('{' :: pt) R) :
    replaceAll (A ++ ('{' :: pt) ++ R) ('{' :: pt) rep = A ++ rep ++ R :=
  replaceAllAux_subst A _ R pt rep hA hR le_rfl

/-- A placeholder for a different name does not occur in
`A ++ placeholder p ++ R` when `A`, `R` and `p` carry no braces. -/
theorem placeholder_not_infix_of_ne {A R p q : List Char}
    (hA : '{' ∉ A) (hRl : '{' ∉ R) (hRr : '}' ∉ R)
    (hpl : '{' ∉ p) (hpr : '}' ∉ p) (hne : q ≠ p) :
    ¬ List.IsInfix (placeholder q) (A ++ placeholder p ++ R) := by
  rintro ⟨x, y, hxy⟩
  have hnorm : A ++ '{' :: (p ++ '}' :: R) = x ++ '{' :: (q ++ '}' :: y) := by
    simpa [placeholder] using hxy.symm
  have hv1 : '{' ∉ p ++ '}' :: R := by
    intro hm
    rcases List.mem_append.mp hm with hm | hm
    · exact hpl hm
    · rcases List.mem_cons.mp hm with hm | hm
      · exact absurd hm.symm (by decide)
      · exact hRl hm
  obtain ⟨hx, htail⟩ := sep_split_unique x A (q ++ '}' :: y) (p ++ '}' :: R) '{' hA hv1
    hnorm.symm
  obtain ⟨hqp, _⟩ := sep_split_unique q p y R '}' hpr hRr htail
  exact hne hqp

/-- Phase 2 of the C3 argument: once the URL is brace-free, processing any
list of clean, resolvable parameters only appends brace-free text. -/
theorem c3_loop_braceFree :
    ∀ (ps : List Parameter) (url : List Char) (first : Bool),
      braceFreeB url = true →
      (∀ q ∈ ps, cleanParam q = true ∧ okParam q = true) →
      ∃ Q, braceFreeB Q = true ∧
        obtain_get_endpoint_loop url first ps = .ok (url ++ Q) := by
  intro ps
  induction ps with
  | nil =>
    intro url first _ _
    exact ⟨[], rfl, by simp [obtain_get_endpoint_loop]⟩
  | cons q t ih =>
    intro url first hurl hcond
    have hq := hcond q (List.mem_cons_self _ _)
    have ht : ∀ r ∈ t, cleanParam r = true ∧ okParam r = true :=
      fun r hr => hcond r (List.mem_cons_of_mem _ hr)
    by_cases hin : q.«in» = strL "path"
    · rcases hsch : q.schema with _ | sch
      · exfalso
        have hok := hq.2
        simp [okParam, hin, hsch] at hok
      · rcases hc : sch.const with _ | w
        · exfalso
          have hok := hq.2
          simp [okParam, hin, hsch, hc] at hok
        · have hnoop : replaceAll url (placeholder q.name) (pyStr w) = url := by
            apply replaceAll_no_occur
            exact not_infix_of_no_open_brace (braceFreeB_not_mem hurl).1
          have step : obtain_get_endpoint_loop url first (q :: t) =
              obtain_get_endpoint_loop url first t := by
            simp [obtain_get_endpoint_loop, hin, hsch, hc, hnoop]
          rw [step]
          exact ih url first hurl ht
    · by_cases hquery : q.«in» = strL "query"
      · obtain ⟨hclean, hok⟩ := hq
        rcases hsch : q.schema with _ | sch
        · have step : obtain_get_endpoint_loop url first (q :: t) =
              obtain_get_endpoint_loop
                (url ++ (if first then ['?'] else ['&'])) false t := by
            simp [obtain_get_endpoint_loop, hin, hquery, hsch, query_ne_path]
          rw [step]
          obtain ⟨Q, hQ, hrec⟩ := ih (url ++ (if first then ['?'] else ['&'])) false
            (by rw [braceFreeB_append, hurl, braceFreeB_sep]; rfl) ht
          exact ⟨(if first then ['?'] else ['&']) ++ Q,
            by rw [braceFreeB_append, braceFreeB_sep, hQ]; rfl,
            by rw [hrec]; simp⟩
        · have hname : braceFreeB q.name = true := by
            simp [cleanParam, Bool.and_eq_true] at hclean
            exact hclean.1.1
          rcases hc : sch.const with _ | w
          · rcases hd : sch.default with _ | w
            · rcases hex : q.«example» with _ | w
              · exfalso
                simp [okParam, hin, hquery, hsch, hc, hd, hex] at hok
              · have hw : braceFreeB (pyStr w) = true := by
                  simp [cleanParam, braceFreeVal, hsch, hex, Bool.and_eq_true] at hclean
                  exact hclean.2
                have step : obtain_get_endpoint_loop url first (q :: t) =
                    obtain_get_endpoint_loop
                      (url ++ ((if first then ['?'] else ['&']) ++
                        q.name ++ '=' :: pyStr w)) false t := by
                  simp [obtain_get_endpoint_loop, hin, hquery, hsch, hc, hd, hex,
                    query_ne_path]
                rw [step]
                obtain ⟨Q, hQ, hrec⟩ := ih
                  (url ++ ((if first then ['?'] else ['&']) ++ q.name ++ '=' :: pyStr w)) false
                  (by rw [braceFreeB_append, hurl,
                    braceFreeB_pair _ _ _ (braceFreeB_sep first) hname hw]; rfl) ht
                exact ⟨((if first then ['?'] else ['&']) ++ q.name ++ '=' :: pyStr w) ++ Q,
                  by rw [braceFreeB_append, hQ,
                    braceFreeB_pair _ _ _ (braceFreeB_sep first) hname hw]; rfl,
                  by rw [hrec]; simp⟩
            · have hw : braceFreeB (pyStr w) = true := by
                simp [cleanParam, braceFreeVal, hsch, hd, Bool.and_eq_true] at hclean
                exact hclean.1.2.2
              have step : obtain_get_endpoint_loop url first (q :: t) =
                  obtain_get_endpoint_loop
                    (url ++ ((if first then ['?'] else ['&']) ++
                      q.name ++ '=' :: pyStr w)) false t := by
                simp [obtain_get_endpoint_loop, hin, hquery, hsch, hc, hd,
                  query_ne_path]
              rw [step]
              obtain ⟨Q, hQ, hrec⟩ := ih
                (url ++ ((if first then ['?'] else ['&']) ++ q.name ++ '=' :: pyStr w)) false
                (by rw [braceFreeB_append, hurl,
                  braceFreeB_pair _ _ _ (braceFreeB_sep first) hname hw]; rfl) ht
              exact ⟨((if first then ['?'] else ['&']) ++ q.name ++ '=' :: pyStr w) ++ Q,
                by rw [braceFreeB_append, hQ,
                  braceFreeB_pair _ _ _ (braceFreeB_sep first) hname hw]; rfl,
                by rw [hrec]; simp⟩
          · have hw : braceFreeB (pyStr w) = true := by
              simp [cleanParam, braceFreeVal, hsch, hc, Bool.and_eq_true] at hclean
              exact hclean.1.2.1
            have step : obtain_get_endpoint_loop url first (q :: t) =
                obtain_get_endpoint_loop
                  (url ++ ((if first then ['?'] else ['&']) ++
                    q.name ++ '=' :: pyStr w)) false t := by
              simp [obtain_get_endpoint_loop, hin, hquery, hsch, hc, query_ne_path]
            rw [step]
            obtain ⟨Q, hQ, hrec⟩ := ih
              (url ++ ((if first then ['?'] else ['&']) ++ q.name ++ '=' :: pyStr w)) false
              (by rw [braceFreeB_append, hurl,
                braceFreeB_pair _ _ _ (braceFreeB_sep first) hname hw]; rfl) ht
            exact ⟨((if first then ['?'] else ['&']) ++ q.name ++ '=' :: pyStr w) ++ Q,
              by rw [braceFreeB_append, hQ,
                braceFreeB_pair _ _ _ (braceFreeB_sep first) hname hw]; rfl,
              by rw [hrec]; simp⟩
      · have step : obtain_get_endpoint_loop url first (q :: t) =
            obtain_get_endpoint_loop url first t := by
          simp [obtain_get_endpoint_loop, hin, hquery]
        rw [step]
        exact ih url first hurl ht

/-- Phase 1 of the C3 argument: while the parameters processed so far are
clean, resolvable, and none of them is a path parameter named `p`, the URL
keeps the shape `A ++ placeholder p ++ R` with a growing brace-free tail. -/
theorem c3_loop_preserves_placeholder (p : List Char) (hpl : '{' ∉ p) (hpr : '}' ∉ p) :
    ∀ (ps1 rest : List Parameter) (A R : List Char) (first : Bool),
      '{' ∉ A →
      braceFreeB R = true →
      (∀ q ∈ ps1, cleanParam q = true ∧ okParam q = true ∧
        ¬ (q.«in» = strL "path" ∧ q.name = p)) →
      ∃ Q first2, braceFreeB Q = true ∧
        obtain_get_endpoint_loop (A ++ placeholder p ++ R) first (ps1 ++ rest) =
          obtain_get_endpoint_loop (A ++ placeholder p ++ (R ++ Q)) first2 rest := by
  intro ps1
  induction ps1 with
  | nil =>
    intro rest A R first _ _ _
    exact ⟨[], first, rfl, by simp⟩
  | cons q t ih =>
    intro rest A R first hA hR hcond
    obtain ⟨hclean, hok, hnotp⟩ := hcond q (List.mem_cons_self _ _)
    have ht : ∀ r ∈ t, cleanParam r = true ∧ okParam r = true ∧
        ¬ (r.«in» = strL "path" ∧ r.name = p) :=
      fun r hr => hcond r (List.mem_cons_of_mem _ hr)
    by_cases hin : q.«in» = strL "path"
    · have hnep : q.name ≠ p := fun h => hnotp ⟨hin, h⟩
      rcases hsch : q.schema with _ | sch
      · exfalso; simp [okParam, hin, hsch] at hok
      · rcases hc : sch.const with _ | w
        · exfalso; simp [okParam, hin, hsch, hc] at hok
        · have hnoop : replaceAll (A ++ placeholder p ++ R)
              (placeholder q.name) (pyStr w) = A ++ placeholder p ++ R := by
            apply replaceAll_no_occur
            exact placeholder_not_infix_of_ne hA (braceFreeB_not_mem hR).1
              (braceFreeB_not_mem hR).2 hpl hpr hnep
          have step : obtain_get_endpoint_loop (A ++ placeholder p ++ R) first
              ((q :: t) ++ rest) =
              obtain_get_endpoint_loop
                (replaceAll (A ++ placeholder p ++ R) (placeholder q.name) (pyStr w))
                first (t ++ rest) := by
            simp [obtain_get_endpoint_loop, hin, hsch, hc]
          obtain ⟨Q, first2, hQ, hrec⟩ := ih rest A R first hA hR ht
          exact ⟨Q, first2, hQ, by rw [step, hnoop]; exact hrec⟩
    · by_cases hquery : q.«in» = strL "query"
      · rcases hsch : q.schema with _ | sch
        · have step : obtain_get_endpoint_loop (A ++ placeholder p ++ R) first
              ((q :: t) ++ rest) =
              obtain_get_endpoint_loop
                ((A ++ placeholder p ++ R) ++ (if first then ['?'] else ['&']))
                false (t ++ rest) := by
            simp [obtain_get_endpoint_loop, hin, hquery, hsch, query_ne_path]
          have hRS : braceFreeB (R ++ (if first then ['?'] else ['&'])) = true := by
            rw [braceFreeB_append, hR, braceFreeB_sep]; rfl
          obtain ⟨Q, first2, hQ, hrec⟩ :=
            ih rest A (R ++ (if first then ['?'] else ['&'])) false hA hRS ht
          refine ⟨(if first then ['?'] else ['&']) ++ Q, first2,
            by rw [braceFreeB_append, braceFreeB_sep, hQ]; rfl, ?_⟩
          rw [step,
            show (A ++ placeholder p ++ R) ++ (if first then ['?'] else ['&']) =
              A ++ placeholder p ++ (R ++ (if first then ['?'] else ['&'])) from by simp,
            hrec,
            show (R ++ (if first then ['?'] else ['&'])) ++ Q =
              R ++ ((if first then ['?'] else ['&']) ++ Q) from List.append_assoc _ _ _]
        · have hname : braceFreeB q.name = true := by
            simp [cleanParam, Bool.and_eq_true] at hclean
            exact hclean.1.1
          rcases hc : sch.const with _ | w
          · rcases hd : sch.default with _ | w
            · rcases hex : q.«example» with _ | w
              · exfalso
                simp [okParam, hin, hquery, hsch, hc, hd, hex] at hok
              · have hw : braceFreeB (pyStr w) = true := by
                  simp [cleanParam, braceFreeVal, hsch, hex, Bool.and_eq_true] at hclean
                  exact hclean.2
                have step : obtain_get_endpoint_loop (A ++ placeholder p ++ R) first
                    ((q :: t) ++ rest) =
                    obtain_get_endpoint_loop
                      ((A ++ placeholder p ++ R) ++
                        ((if first then ['?'] else ['&']) ++ q.name ++ '=' :: pyStr w))
                      false (t ++ rest) := by
                  simp [obtain_get_endpoint_loop, hin, hquery, hsch, hc, hd, hex,
                    query_ne_path]
                have hRS : braceFreeB (R ++
                    ((if first then ['?'] else ['&']) ++ q.name ++ '=' :: pyStr w)) = true := by
                  rw [braceFreeB_append, hR,
                    braceFreeB_pair _ _ _ (braceFreeB_sep first) hname hw]; rfl
                obtain ⟨Q, first2, hQ, hrec⟩ :=
                  ih rest A
                    (R ++ ((if first then ['?'] else ['&']) ++ q.name ++ '=' :: pyStr w))
                    false hA hRS ht
                refine ⟨((if first then ['?'] else ['&']) ++ q.name ++ '=' :: pyStr w) ++ Q,
                  first2,
                  by rw [braceFreeB_append, hQ,
                    braceFreeB_pair _ _ _ (braceFreeB_sep first) hname hw]; rfl, ?_⟩
                rw [step,
                  show (A ++ placeholder p ++ R) ++
                      ((if first then ['?'] else ['&']) ++ q.name ++ '=' :: pyStr w) =
                    A ++ placeholder p ++
                      (R ++ ((if first then ['?'] else ['&']) ++ q.name ++ '=' :: pyStr w))
                    from by simp,
                  hrec,
                  show (R ++ ((if first then ['?'] else ['&']) ++ q.name ++ '=' :: pyStr w)) ++ Q =
                    R ++ (((if first then ['?'] else ['&']) ++ q.name ++ '=' :: pyStr w) ++ Q)
                    from List.append_assoc _ _ _]
            · have hw : braceFreeB (pyStr w) = true := by
                simp [cleanParam, braceFreeVal, hsch, hd, Bool.and_eq_true] at hclean
                exact hclean.1.2.2
              have step : obtain_get_endpoint_loop (A ++ placeholder p ++ R) first
                  ((q :: t) ++ rest) =
                  obtain_get_endpoint_loop
                    ((A ++ placeholder p ++ R) ++
                      ((if first then ['?'] else ['&']) ++ q.name ++ '=' :: pyStr w))
                    false (t ++ rest) := by
                simp [obtain_get_endpoint_loop, hin, hquery, hsch, hc, hd, query_ne_path]
              have hRS : braceFreeB (R ++
                  ((if first then ['?'] else ['&']) ++ q.name ++ '=' :: pyStr w)) = true := by
                rw [braceFreeB_append, hR,
                  braceFreeB_pair _ _ _ (braceFreeB_sep first) hname hw]; rfl
              obtain ⟨Q, first2, hQ, hrec⟩ :=
                ih rest A
                  (R ++ ((if first then ['?'] else ['&']) ++ q.name ++ '=' :: pyStr w))
                  false hA hRS ht
              refine ⟨((if first then ['?'] else ['&']) ++ q.name ++ '=' :: pyStr w) ++ Q,
                first2,
                by rw [braceFreeB_append, hQ,
                  braceFreeB_pair _ _ _ (braceFreeB_sep first) hname hw]; rfl, ?_⟩
              rw [step,
                show (A ++ placeholder p ++ R) ++
                    ((if first then ['?'] else ['&']) ++ q.name ++ '=' :: pyStr w) =
                  A ++ placeholder p ++
                    (R ++ ((if first then ['?'] else ['&']) ++ q.name ++ '=' :: pyStr w))
                  from by simp,
                hrec,
                show (R ++ ((if first then ['?'] else ['&']) ++ q.name ++ '=' :: pyStr w)) ++ Q =
                  R ++ (((if first then ['?'] else ['&']) ++ q.name ++ '=' :: pyStr w) ++ Q)
                  from List.append_assoc _ _ _]
          · have hw : braceFreeB (pyStr w) = true := by
              simp [cleanParam, braceFreeVal, hsch, hc, Bool.and_eq_true] at hclean
              exact hclean.1.2.1
            have step : obtain_get_endpoint_loop (A ++ placeholder p ++ R) first
                ((q :: t) ++ rest) =
                obtain_get_endpoint_loop
                  ((A ++ placeholder p ++ R) ++
                    ((if first then ['?'] else ['&']) ++ q.name ++ '=' :: pyStr w))
                  false (t ++ rest) := by
              simp [obtain_get_endpoint_loop, hin, hquery, hsch, hc, query_ne_path]
            have hRS : braceFreeB (R ++
                ((if first then ['?'] else ['&']) ++ q.name ++ '=' :: pyStr w)) = true := by
              rw [braceFreeB_append, hR,
                braceFreeB_pair _ _ _ (braceFreeB_sep first) hname hw]; rfl
            obtain ⟨Q, first2, hQ, hrec⟩ :=
              ih rest A
                (R ++ ((if first then ['?'] else ['&']) ++ q.name ++ '=' :: pyStr w))
                false hA hRS ht
            refine ⟨((if first then ['?'] else ['&']) ++ q.name ++ '=' :: pyStr w) ++ Q,
              first2,
              by rw [braceFreeB_append, hQ,
                braceFreeB_pair _ _ _ (braceFreeB_sep first) hname hw]; rfl, ?_⟩
            rw [step,
              show (A ++ placeholder p ++ R) ++
                  ((if first then ['?'] else ['&']) ++ q.name ++ '=' :: pyStr w) =
                A ++ placeholder p ++
                  (R ++ ((if first then ['?'] else ['&']) ++ q.name ++ '=' :: pyStr w))
                from by simp,
              hrec,
              show (R ++ ((if first then ['?'] else ['&']) ++ q.name ++ '=' :: pyStr w)) ++ Q =
                R ++ (((if first then ['?'] else ['&']) ++ q.name ++ '=' :: pyStr w) ++ Q)
                from List.append_assoc _ _ _]
      · have step : obtain_get_endpoint_loop (A ++ placeholder p ++ R) first
            ((q :: t) ++ rest) =
            obtain_get_endpoint_loop (A ++ placeholder p ++ R) first (t ++ rest) := by
          simp [obtain_get_endpoint_loop, hin, hquery]
        obtain ⟨Q, first2, hQ, hrec⟩ := ih rest A R first hA hR ht
        exact ⟨Q, first2, hQ, by rw [step]; exact hrec⟩

/-- C3 (amended): for a path template `A ++ placeholder p ++ B` and a declared
`"in": "path"` parameter named `p` with `schema.const = v` — provided the
template outside the placeholder, the name `p`, the stringified `v`, and
every other parameter's contributed strings are brace-free, no earlier
parameter is a path parameter named `p`, and every parameter is resolvable —
the synthesized URL is `A ++ str(v) ++ B` followed by the query tail, with
`str(v)` in place of the placeholder and no literal `placeholder p` substring.
Without the brace-freeness proviso the property fails (see the
counterexample, where `str(v)` is itself the placeholder). -/
theorem c3_placeholder_substitution
    (A B p : List Char) (v : Val) (sch : Schema) (ex : Option Val)
    (ps1 ps2 : List Parameter)
    (hconst : sch.const = some v)
    (hA : braceFreeB A = true) (hB : braceFreeB B = true)
    (hp : braceFreeB p = true) (hv : braceFreeB (pyStr v) = true)
    (hps1 : ∀ q ∈ ps1, cleanParam q = true ∧ okParam q = true ∧
      ¬ (q.«in» = strL "path" ∧ q.name = p))
    (hps2 : ∀ q ∈ ps2, cleanParam q = true ∧ okParam q = true) :
    ∃ Q, braceFreeB Q = true ∧
      obtain_get_endpoint (A ++ placeholder p ++ B)
        ⟨some (ps1 ++ ⟨strL "path", p, some sch, ex⟩ :: ps2)⟩ =
        .ok ⟨A ++ pyStr v ++ B ++ Q, strL "GET", none⟩ ∧
      ¬ List.IsInfix (placeholder p) (A ++ pyStr v ++ B ++ Q) := by
  obtain ⟨hpl, hpr⟩ := braceFreeB_not_mem hp
  obtain ⟨hAl, hAr⟩ := braceFreeB_not_mem hA
  obtain ⟨Q1, first2, hQ1, heq1⟩ :=
    c3_loop_preserves_placeholder p hpl hpr ps1
      (⟨strL "path", p, some sch, ex⟩ :: ps2) A B true hAl hB hps1
  have hBQ1 : braceFreeB (B ++ Q1) = true := by
    rw [braceFreeB_append, hB, hQ1]; rfl
  have hsubst : replaceAll (A ++ placeholder p ++ (B ++ Q1))
      (placeholder p) (pyStr v) = A ++ pyStr v ++ (B ++ Q1) := by
    have hninf : ¬ List.IsInfix ('{' :: (p ++ ['}'])) (B ++ Q1) :=
      not_infix_of_no_open_brace (braceFreeB_not_mem hBQ1).1
    exact replaceAll_subst A (B ++ Q1) (p ++ ['}']) (pyStr v) hAl hninf
  have step : obtain_get_endpoint_loop (A ++ placeholder p ++ (B ++ Q1)) first2
      ((⟨strL "path", p, some sch, ex⟩ : Parameter) :: ps2) =
      obtain_get_endpoint_loop
        (replaceAll (A ++ placeholder p ++ (B ++ Q1)) (placeholder p) (pyStr v))
        first2 ps2 := by
    simp [obtain_get_endpoint_loop, hconst]
  have hurl0 : braceFreeB (A ++ pyStr v ++ (B ++ Q1)) = true := by
    rw [braceFreeB_append, braceFreeB_append, hA, hv, hBQ1]; rfl
  obtain ⟨Q2, hQ2, heq2⟩ :=
    c3_loop_braceFree ps2 (A ++ pyStr v ++ (B ++ Q1)) first2 hurl0 hps2
  refine ⟨Q1 ++ Q2, by rw [braceFreeB_append, hQ1, hQ2]; rfl, ?_, ?_⟩
  · have hfinal : obtain_get_endpoint_loop (A ++ placeholder p ++ B) true
        (ps1 ++ ⟨strL "path", p, some sch, ex⟩ :: ps2) =
        .ok (A ++ pyStr v ++ B ++ (Q1 ++ Q2)) := by
      rw [heq1, step, hsubst, heq2]
      simp [List.append_assoc]
    have hfinal2 : obtain_get_endpoint_loop (A ++ (placeholder p ++ B)) true
        (ps1 ++ ⟨strL "path", p, some sch, ex⟩ :: ps2) =
        .ok (A ++ pyStr v ++ B ++ (Q1 ++ Q2)) := by
      rw [← List.append_assoc]; exact hfinal
    simp [obtain_get_endpoint, hfinal2]
  · have hall : braceFreeB (A ++ pyStr v ++ B ++ (Q1 ++ Q2)) = true := by
      simp [braceFreeB_append, hA, hv, hB, hQ1, hQ2]
    exact not_infix_of_no_open_brace (braceFreeB_not_mem hall).1

/-- C3 (counterexample): a path parameter `p` whose constant value is the
string `"{p}"` itself — the substitution rewrites the placeholder to itself,
so the synthesized URL still contains the literal `{p}` substring,
contradicting the claim as stated. -/
theorem c3_counterexample :
    obtain_get_endpoint (strL "/items/{p}")
      ⟨some [⟨strL "path", strL "p", some ⟨some (.vStr (strL "{p}")), none⟩, none⟩]⟩ =
      .ok ⟨strL "/items/{p}", strL "GET", none⟩ ∧
    List.IsInfix (placeholder (strL "p")) (strL "/items/{p}") := by
  constructor
  · decide
  · decide

/-- C3 witness: the amended statement at the end-to-end example of §8 —
template `/items/{p}` with `const = 42`. -/
theorem c3_placeholder_substitution_witness :
    ∃ Q, braceFreeB Q = true ∧
      obtain_get_endpoint (strL "/items/" ++ placeholder (strL "p") ++ strL "")
        ⟨some ([] ++ ⟨strL "path", strL "p", some ⟨some (.vInt 42), none⟩, none⟩ :: [])⟩ =
        .ok ⟨strL "/items/" ++ pyStr (.vInt 42) ++ strL "" ++ Q, strL "GET", none⟩ ∧
      ¬ List.IsInfix (placeholder (strL "p"))
        (strL "/items/" ++ pyStr (.vInt 42) ++ strL "" ++ Q) :=
  c3_placeholder_substitution (strL "/items/") (strL "") (strL "p") (.vInt 42)
    ⟨some (.vInt 42), none⟩ none [] [] rfl (by decide) (by decide) (by decide)
    (by decide) (by simp) (by simp)

/-- The parameter loop raises as soon as it reaches a path parameter with no
resolvable constant (it may raise even earlier, on a value-less query
parameter; either way the whole loop fails). -/
theorem obtain_get_endpoint_loop_error_of_bad :
    ∀ (params : List Parameter) (api_endpoint : List Char) (first : Bool),
      params.any missing_const_path_param = true →
      ∃ e, obtain_get_endpoint_loop api_endpoint first params = .error e := by
  intro params
  induction params with
  | nil => intro api first h; simp at h
  | cons p rest ih =>
    intro api first h
    rw [List.any_cons] at h
    by_cases hin : p.«in» = strL "path"
    · rcases hsch : p.schema with _ | sch
      · exact ⟨.keyError (strL "schema"), by
          simp [obtain_get_endpoint_loop, hin, hsch]⟩
      · rcases hc : sch.const with _ | v
        · exact ⟨.keyError (strL "const"), by
            simp [obtain_get_endpoint_loop, hin, hsch, hc]⟩
        · have hbadp : missing_const_path_param p = false := by
            simp [missing_const_path_param, hsch, hc]
          rw [hbadp] at h
          simp only [Bool.false_or] at h
          have step : obtain_get_endpoint_loop api first (p :: rest) =
              obtain_get_endpoint_loop
                (replaceAll api (placeholder p.name) (pyStr v)) first rest := by
            simp [obtain_get_endpoint_loop, hin, hsch, hc]
          rw [step]
          exact ih _ first h
    · have hbadp : missing_const_path_param p = false := by
        simp [missing_const_path_param, beq_iff_eq, hin]
      rw [hbadp] at h
      simp only [Bool.false_or] at h
      by_cases hq : p.«in» = strL "query"
      · rcases hsch : p.schema with _ | sch
        · have step : obtain_get_endpoint_loop api first (p :: rest) =
              obtain_get_endpoint_loop
                (api ++ (if first then ['?'] else ['&'])) false rest := by
            simp [obtain_get_endpoint_loop, hin, hq, hsch, query_ne_path]
          rw [step]
          exact ih _ false h
        · rcases hc : sch.const with _ | v
          · rcases hd : sch.default with _ | v
            · rcases hex : p.«example» with _ | v
              · exact ⟨.keyError (strL "example"), by
                  simp [obtain_get_endpoint_loop, hin, hq, hsch, hc, hd, hex,
                    query_ne_path]⟩
              · have step : obtain_get_endpoint_loop api first (p :: rest) =
                    obtain_get_endpoint_loop
                      (api ++ (if first then ['?'] else ['&']) ++
                        p.name ++ '=' :: pyStr v) false rest := by
                  simp [obtain_get_endpoint_loop, hin, hq, hsch, hc, hd, hex,
                    query_ne_path]
                rw [step]
                exact ih _ false h
            · have step : obtain_get_endpoint_loop api first (p :: rest) =
                  obtain_get_endpoint_loop
                    (api ++ (if first then ['?'] else ['&']) ++
                      p.name ++ '=' :: pyStr v) false rest := by
                simp [obtain_get_endpoint_loop, hin, hq, hsch, hc, hd,
                  query_ne_path]
              rw [step]
              exact ih _ false h
          · have step : obtain_get_endpoint_loop api first (p :: rest) =
                obtain_get_endpoint_loop
                  (api ++ (if first then ['?'] else ['&']) ++
                    p.name ++ '=' :: pyStr v) false rest := by
              simp [obtain_get_endpoint_loop, hin, hq, hsch, hc, query_ne_path]
            rw [step]
            exact ih _ false h
      · have step : obtain_get_endpoint_loop api first (p :: rest) =
            obtain_get_endpoint_loop api first rest := by
          simp [obtain_get_endpoint_loop, hin, hq]
        rw [step]
        exact ih _ first h

/-- C1 (counterexample): a GET operation whose path parameter has a schema
without a `const` key makes `obtain_get_endpoint` raise
`KeyError('const')` — synthesis fails, no descriptor with the literal
placeholder is returned. -/
theorem c1_counterexample :
    obtain_get_endpoint (strL "http://x/items/{id}")
      ⟨some [⟨strL "path", strL "id", some ⟨none, none⟩, none⟩]⟩ =
    .error (.keyError (strL "const")) := by decide

/-- C1 (amended): for every GET operation that declares an `"in": "path"`
parameter with no `schema.const` value (schema missing, or schema present
without a `const` key), `obtain_get_endpoint` fails with a raised error
instead of skipping the substitution. -/
theorem c1_path_param_without_const_fails (api_endpoint : List Char)
    (params : List Parameter)
    (h : params.any missing_const_path_param = true) :
    ∃ e, obtain_get_endpoint api_endpoint ⟨some params⟩ = .error e := by
  obtain ⟨e, he⟩ := obtain_get_endpoint_loop_error_of_bad params api_endpoint true h
  exact ⟨e, by simp [obtain_get_endpoint, he]⟩

/-- C1 witness: the amended statement applied to a concrete operation. -/
theorem c1_path_param_without_const_fails_witness :
    ∃ e, obtain_get_endpoint (strL "http://y/users/{uid}")
        ⟨some [⟨strL "path", strL "uid", none, none⟩]⟩ = .error e :=
  c1_path_param_without_const_fails _ _ (by decide)

/-- The parameter loop on query parameters after the first query parameter
has been seen: each parameter appends `&name=value` with the spec's value
resolution order. -/
theorem obtain_get_endpoint_loop_query_string :
    ∀ (ps : List Parameter) (api_endpoint : List Char),
      (∀ q ∈ ps, q.«in» = strL "query") →
      (∀ q ∈ ps, (spec_query_value q).isSome = true) →
      obtain_get_endpoint_loop api_endpoint false ps =
        .ok (api_endpoint ++ ps.flatMap fun r => '&' :: spec_query_pair r) := by
  intro ps
  induction ps with
  | nil => intro api _ _; simp [obtain_get_endpoint_loop]
  | cons q rest ih =>
    intro api hq hres
    have hqin := hq q (List.mem_cons_self _ _)
    have hqs := hres q (List.mem_cons_self _ _)
    have hin : ¬ (q.«in» = strL "path") := by rw [hqin]; exact query_ne_path
    have hrest1 : ∀ r ∈ rest, r.«in» = strL "query" :=
      fun r hr => hq r (List.mem_cons_of_mem _ hr)
    have hrest2 : ∀ r ∈ rest, (spec_query_value r).isSome = true :=
      fun r hr => hres r (List.mem_cons_of_mem _ hr)
    rcases hsch : q.schema with _ | sch
    · exfalso; rw [spec_query_value, hsch] at hqs; simp at hqs
    · rcases hc : sch.const with _ | v
      · rcases hd : sch.default with _ | v
        · rcases hex : q.«example» with _ | v
          · exfalso
            rw [spec_query_value, hsch] at hqs
            simp [hc, hd, hex] at hqs
          · have step : obtain_get_endpoint_loop api false (q :: rest) =
                obtain_get_endpoint_loop
                  (api ++ ['&'] ++ q.name ++ '=' :: pyStr v) false rest := by
              simp [obtain_get_endpoint_loop, hin, hqin, hsch, hc, hd, hex,
                query_ne_path]
            rw [step, ih _ hrest1 hrest2]
            simp [spec_query_pair, spec_query_value, hsch, hc, hd, hex]
        · have step : obtain_get_endpoint_loop api false (q :: rest) =
              obtain_get_endpoint_loop
                (api ++ ['&'] ++ q.name ++ '=' :: pyStr v) false rest := by
            simp [obtain_get_endpoint_loop, hin, hqin, hsch, hc, hd,
              query_ne_path]
          rw [step, ih _ hrest1 hrest2]
          simp [spec_query_pair, spec_query_value, hsch, hc, hd]
      · have step : obtain_get_endpoint_loop api false (q :: rest) =
            obtain_get_endpoint_loop
              (api ++ ['&'] ++ q.name ++ '=' :: pyStr v) false rest := by
          simp [obtain_get_endpoint_loop, hin, hqin, hsch, hc, query_ne_path]
        rw [step, ih _ hrest1 hrest2]
        simp [spec_query_pair, spec_query_value, hsch, hc]

/-- C2: for every GET operation all of whose parameters are query parameters
with a resolvable value, `obtain_get_endpoint` appends them in declared
order as `name=value` pairs — the first prefixed by `?`, the rest by `&`,
with the spec's value-resolution order (`schema.const`, else
`schema.default`, else `example`). -/
theorem c2_query_parameters (api_endpoint : List Char) (ps : List Parameter)
    (hq : ∀ q ∈ ps, q.«in» = strL "query")
    (hres : ∀ q ∈ ps, (spec_query_value q).isSome = true) :
    obtain_get_endpoint api_endpoint ⟨some ps⟩ =
      .ok ⟨api_endpoint ++ spec_query_string ps, strL "GET", none⟩ := by
  cases ps with
  | nil =>
    simp [obtain_get_endpoint, obtain_get_endpoint_loop, spec_query_string]
  | cons q rest =>
    have hqin := hq q (List.mem_cons_self _ _)
    have hqs := hres q (List.mem_cons_self _ _)
    have hin : ¬ (q.«in» = strL "path") := by rw [hqin]; exact query_ne_path
    have hrest1 : ∀ r ∈ rest, r.«in» = strL "query" :=
      fun r hr => hq r (List.mem_cons_of_mem _ hr)
    have hrest2 : ∀ r ∈ rest, (spec_query_value r).isSome = true :=
      fun r hr => hres r (List.mem_cons_of_mem _ hr)
    have key : obtain_get_endpoint_loop api_endpoint true (q :: rest) =
        .ok (api_endpoint ++ spec_query_string (q :: rest)) := by
      rcases hsch : q.schema with _ | sch
      · exfalso; rw [spec_query_value, hsch] at hqs; simp at hqs
      · rcases hc : sch.const with _ | v
        · rcases hd : sch.default with _ | v
          · rcases hex : q.«example» with _ | v
            · exfalso
              rw [spec_query_value, hsch] at hqs
              simp [hc, hd, hex] at hqs
            · have step : obtain_get_endpoint_loop api_endpoint true (q :: rest) =
                  obtain_get_endpoint_loop
                    (api_endpoint ++ ['?'] ++ q.name ++ '=' :: pyStr v) false rest := by
                simp [obtain_get_endpoint_loop, hin, hqin, hsch, hc, hd, hex,
                  query_ne_path]
              rw [step, obtain_get_endpoint_loop_query_string rest _ hrest1 hrest2]
              simp [spec_query_string, spec_query_pair, spec_query_value,
                hsch, hc, hd, hex]
          · have step : obtain_get_endpoint_loop api_endpoint true (q :: rest) =
                obtain_get_endpoint_loop
                  (api_endpoint ++ ['?'] ++ q.name ++ '=' :: pyStr v) false rest := by
              simp [obtain_get_endpoint_loop, hin, hqin, hsch, hc, hd,
                query_ne_path]
            rw [step, obtain_get_endpoint_loop_query_string rest _ hrest1 hrest2]
            simp [spec_query_string, spec_query_pair, spec_query_value,
              hsch, hc, hd]
        · have step : obtain_get_endpoint_loop api_endpoint true (q :: rest) =
              obtain_get_endpoint_loop
                (api_endpoint ++ ['?'] ++ q.name ++ '=' :: pyStr v) false rest := by
            simp [obtain_get_endpoint_loop, hin, hqin, hsch, hc, query_ne_path]
          rw [step, obtain_get_endpoint_loop_query_string rest _ hrest1 hrest2]
          simp [spec_query_string, spec_query_pair, spec_query_value, hsch, hc]
    simp [obtain_get_endpoint, key]

/-- C2 witness: query parameters `a` (`const = 1`) and `b` (`default = 2`)
yield a URL ending in `?a=1&b=2`, with exactly one `?` and one `&`. -/
theorem c2_query_parameters_witness :
    obtain_get_endpoint (strL "http://x/items")
      ⟨some [⟨strL "query", strL "a", some ⟨some (.vInt 1), none⟩, none⟩,
             ⟨strL "query", strL "b", some ⟨none, some (.vInt 2)⟩, none⟩]⟩ =
      .ok ⟨strL "http://x/items?a=1&b=2", strL "GET", none⟩ ∧
    List.IsSuffix (strL "?a=1&b=2") (strL "http://x/items?a=1&b=2") ∧
    (strL "http://x/items?a=1&b=2").count '?' = 1 ∧
    (strL "http://x/items?a=1&b=2").count '&' = 1 := by
  refine ⟨?_, by decide, by decide, by decide⟩
  exact (c2_query_parameters (strL "http://x/items") _ (by decide) (by decide)).trans
    (by decide)

/-- C4: for every operation and every method string lowercasing to `post`,
`patch`, `put` or `delete`, `generate_endpoint_dict` returns `None`
regardless of the operation's parameters. -/
theorem c4_unimplemented_methods (api_endpoint : List Char)
    (api_dict : Operation) (method : List Char)
    (h : toLowerStr method = strL "post" ∨ toLowerStr method = strL "patch" ∨
         toLowerStr method = strL "put" ∨ toLowerStr method = strL "delete") :
    generate_endpoint_dict api_endpoint api_dict method = .ok none := by
  unfold generate_endpoint_dict
  rcases h with h | h | h | h <;> rw [h]
  · rw [if_neg (by decide), if_pos rfl]
  · rw [if_neg (by decide), if_neg (by decide), if_pos rfl]
  · rw [if_neg (by decide), if_neg (by decide), if_neg (by decide), if_pos rfl]
  · rw [if_neg (by decide), if_neg (by decide), if_neg (by decide),
      if_neg (by decide), if_pos rfl]

/-- C4 witness: method `"POST"` on a concrete operation yields `None`. -/
theorem c4_unimplemented_methods_witness :
    toLowerStr (strL "POST") = strL "post" ∧
    generate_endpoint_dict (strL "http://x/items")
      ⟨some [⟨strL "query", strL "a", some ⟨some (.vInt 1), none⟩, none⟩]⟩
      (strL "POST") = .ok none :=
  ⟨by decide, c4_unimplemented_methods _ _ _ (Or.inl (by decide))⟩

/-- C5: for every method string whose lowercase form is none of `get`,
`post`, `patch`, `put`, `delete`, `generate_endpoint_dict` raises
`ValueError` with message `"Invalid method: " + method`, which contains the
offending method string. -/
theorem c5_invalid_method (api_endpoint : List Char) (api_dict : Operation)
    (method : List Char)
    (h1 : toLowerStr method ≠ strL "get") (h2 : toLowerStr method ≠ strL "post")
    (h3 : toLowerStr method ≠ strL "patch") (h4 : toLowerStr method ≠ strL "put")
    (h5 : toLowerStr method ≠ strL "delete") :
    generate_endpoint_dict api_endpoint api_dict method =
      .error (.valueError (strL "Invalid method: " ++ method)) ∧
    List.IsInfix method (strL "Invalid method: " ++ method) := by
  constructor
  · unfold generate_endpoint_dict
    rw [if_neg h1, if_neg h2, if_neg h3, if_neg h4, if_neg h5]
  · exact (List.suffix_append _ _).isInfix

/-- C5 witness: method `"trace"` fails with an error identifying `"trace"`. -/
theorem c5_invalid_method_witness :
    generate_endpoint_dict (strL "http://x") ⟨some []⟩ (strL "trace") =
      .error (.valueError (strL "Invalid method: " ++ strL "trace")) ∧
    List.IsInfix (strL "trace") (strL "Invalid method: " ++ strL "trace") :=
  c5_invalid_method _ _ _ (by decide) (by decide) (by decide) (by decide) (by decide)

/-- `spec_enumerate` distributes over list append. -/
theorem spec_enumerate_append (api_url : List Char) :
    ∀ (l1 l2 : List (List Char × List Char × Operation)),
      spec_enumerate api_url (l1 ++ l2) =
        match spec_enumerate api_url l1 with
        | .error e => .error e
        | .ok ds =>
          match spec_enumerate api_url l2 with
          | .error e => .error e
          | .ok ds2 => .ok (ds ++ ds2) := by
  intro l1
  induction l1 with
  | nil =>
    intro l2
    simp only [List.nil_append, spec_enumerate]
    cases spec_enumerate api_url l2 <;> simp
  | cons j rest ih =>
    intro l2
    obtain ⟨path, method, op⟩ := j
    cases hg : generate_endpoint_dict (api_url ++ path) op method with
    | error e => simp [spec_enumerate, hg]
    | ok d =>
      cases h1 : spec_enumerate api_url rest with
      | error e => simp [spec_enumerate, hg, ih, h1]
      | ok ds =>
        cases h2 : spec_enumerate api_url l2 with
        | error e => simp [spec_enumerate, hg, ih, h1, h2]
        | ok ds2 => simp [spec_enumerate, hg, ih, h1, h2]

/-- The inner method loop equals spec-side enumeration of that path's
method jobs, appended to the accumulator. -/
theorem list_api_endpoints_methods_loop_eq (api_url path : List Char) :
    ∀ (l : List (List Char × Operation)) (acc : List (Option EndpointDict)),
      list_api_endpoints_methods_loop api_url path acc l =
        match spec_enumerate api_url (l.map fun mo => (path, mo.1, mo.2)) with
        | .error e => .error e
        | .ok ds => .ok (acc ++ ds) := by
  intro l
  induction l with
  | nil => intro acc; simp [list_api_endpoints_methods_loop, spec_enumerate]
  | cons mo rest ih =>
    intro acc
    obtain ⟨method, op⟩ := mo
    cases hg : generate_endpoint_dict (api_url ++ path) op method with
    | error e => simp [list_api_endpoints_methods_loop, spec_enumerate, hg]
    | ok d =>
      cases h1 : spec_enumerate api_url (rest.map fun mo => (path, mo.1, mo.2)) with
      | error e => simp [list_api_endpoints_methods_loop, spec_enumerate, hg, ih, h1]
      | ok ds => simp [list_api_endpoints_methods_loop, spec_enumerate, hg, ih, h1]

/-- The outer path loop equals spec-side enumeration of all jobs, appended
to the accumulator. -/
theorem list_api_endpoints_paths_loop_eq (api_url : List Char) :
    ∀ (L : List (List Char × List (List Char × Operation)))
      (acc : List (Option EndpointDict)),
      list_api_endpoints_paths_loop api_url acc L =
        match spec_enumerate api_url (endpoint_jobs L) with
        | .error e => .error e
        | .ok ds => .ok (acc ++ ds) := by
  intro L
  induction L with
  | nil => intro acc; simp [list_api_endpoints_paths_loop, endpoint_jobs, spec_enumerate]
  | cons pr rest ih =>
    intro acc
    obtain ⟨path, methods⟩ := pr
    cases h1 : spec_enumerate api_url (methods.map fun mo => (path, mo.1, mo.2)) with
    | error e =>
      simp [list_api_endpoints_paths_loop, list_api_endpoints_methods_loop_eq,
        endpoint_jobs, spec_enumerate_append, h1]
    | ok ds =>
      cases h2 : spec_enumerate api_url
          (rest.flatMap fun pr => pr.2.map fun mo => (pr.1, mo.1, mo.2)) with
      | error e =>
        simp [list_api_endpoints_paths_loop, list_api_endpoints_methods_loop_eq,
          endpoint_jobs, spec_enumerate_append, h1, h2, ih]
      | ok ds2 =>
        simp [list_api_endpoints_paths_loop, list_api_endpoints_methods_loop_eq,
          endpoint_jobs, spec_enumerate_append, h1, h2, ih]

/-- C6: `list_api_endpoints` walks `paths` in document order, and under each
path every method key in document order; for each pair it builds the URL
`baseUrl ++ pathTemplate`, invokes synthesis, and appends the result
unconditionally — one entry per (path, method) pair, nulls included, in that
order. -/
theorem c6_list_api_endpoints_order (api_url : List Char)
    (paths : List (List Char × List (List Char × Operation))) :
    list_api_endpoints ⟨some paths⟩ api_url =
      spec_enumerate api_url (endpoint_jobs paths) := by
  cases h : spec_enumerate api_url (endpoint_jobs paths) with
  | error e => simp [list_api_endpoints, list_api_endpoints_paths_loop_eq, h]
  | ok ds => simp [list_api_endpoints, list_api_endpoints_paths_loop_eq, h]

/-- C7: when the body fetched from `baseUrl + "/openapi.json"` cannot be
parsed as JSON, `obtain_openapi_dict` catches the failure, prints one
`Error:` diagnostic line, and returns `None` instead of raising. -/
theorem c7_fetch_parse_error (api_url body err : List Char)
    (http_get : List Char → Except PyError (List Char))
    (parse_json : List Char → Except (List Char) ApiDict)
    (hget : http_get (api_url ++ strL "/openapi.json") = .ok body)
    (hparse : parse_json body = .error err) :
    obtain_openapi_dict api_url http_get parse_json =
      .ok (none, [strL "Error: " ++ err]) := by
  simp [obtain_openapi_dict, hget, hparse]

/-- C7 witness: a concrete fetch returning a non-JSON body. -/
theorem c7_fetch_parse_error_witness :
    obtain_openapi_dict (strL "http://x")
      (fun _ => .ok (strL "<html>not json</html>"))
      (fun _ => .error (strL "Expecting value: line 1 column 1 (char 0)")) =
      .ok (none, [strL "Error: " ++ strL "Expecting value: line 1 column 1 (char 0)"]) :=
  c7_fetch_parse_error _ _ _ _ _ rfl rfl

/-- C8: any failure while processing one descriptor (a `None` descriptor, a
decode error, or any other request error) is caught, reported as a single
`Error:` line, and the runner continues: with three descriptors whose second
fails, the first and third are still executed and their `Checked:`/`Status:`
lines reported. -/
theorem c8_runner_resilience (e1 e3 : EndpointDict) (e2 : Option EndpointDict)
    (results : Nat → ReqResult) (st1 st3 : Int) (el1 el3 : List Char)
    (h0 : results 0 = .success st1 el1)
    (h2 : results 2 = .success st3 el3)
    (hfail : e2 = none ∨ results 1 = .jsonDecodeError ∨
      ∃ msg, results 1 = .requestError msg) :
    ∃ m, test_api_endpoints [some e1, e2, some e3] results =
      [checked_line e1.url e1.url, status_line st1 el1] ++
      [strL "Error: " ++ m] ++
      [checked_line e3.url e3.url, status_line st3 el3] := by
  have hstep : ∃ m, test_api_endpoints_step e2 (results 1) = [strL "Error: " ++ m] := by
    rcases hfail with h | h | ⟨msg, h⟩
    · exact ⟨strL "NoneType object is not subscriptable", by rw [h]; rfl⟩
    · cases e2 with
      | none => exact ⟨strL "NoneType object is not subscriptable", rfl⟩
      | some e =>
        refine ⟨strL "Invalid JSON data", ?_⟩
        rw [h]
        show [strL "Error: Invalid JSON data"] = _
        decide
    · cases e2 with
      | none => exact ⟨strL "NoneType object is not subscriptable", rfl⟩
      | some e => exact ⟨msg, by rw [h]; rfl⟩
  obtain ⟨m, hm⟩ := hstep
  refine ⟨m, ?_⟩
  simp only [test_api_endpoints, List.append_nil]
  rw [h0, h2, hm]
  simp [test_api_endpoints_step]

/-- C8 witness: three concrete descriptors, the second being `None` (which
raises inside the loop body and is caught). -/
theorem c8_runner_resilience_witness :
    ∃ m, test_api_endpoints
        [some ⟨strL "http://x/a", strL "GET", none⟩, none,
         some ⟨strL "http://x/c", strL "GET", none⟩]
        (fun n => match n with
          | 0 => .success 200 (strL "1.23")
          | 2 => .success 404 (strL "4.56")
          | _ => .requestError (strL "boom")) =
      [checked_line (strL "http://x/a") (strL "http://x/a"),
       status_line 200 (strL "1.23")] ++
      [strL "Error: " ++ m] ++
      [checked_line (strL "http://x/c") (strL "http://x/c"),
       status_line 404 (strL "4.56")] :=
  c8_runner_resilience _ _ _ _ _ _ _ _ rfl rfl (Or.inl rfl)

/-- C9: for every successfully executed descriptor, the printed `Checked:`
line carries the descriptor's URL in both slots (line 226 of `endpoint.py`
assigns `method = endpoint["url"]`), and the printed lines do not depend on
the descriptor's declared `method` field at all — so the declared method
string is never what is logged in the method position. -/
theorem c9_checked_line_logs_url_twice (url m m2 : List Char)
    (d d2 : Option (List Char)) (st : Int) (el : List Char) :
    test_api_endpoints_step (some ⟨url, m, d⟩) (.success st el) =
      [strL "Checked: " ++ url ++ strL " (" ++ url ++ [')'], status_line st el] ∧
    test_api_endpoints_step (some ⟨url, m2, d2⟩) (.success st el) =
      test_api_endpoints_step (some ⟨url, m, d⟩) (.success st el) ∧
    test_api_endpoints [some ⟨url, m, d⟩] (fun _ => .success st el) =
      [strL "Checked: " ++ url ++ strL " (" ++ url ++ [')'], status_line st el] :=
  ⟨rfl, rfl, rfl⟩

/-- C10: a query parameter object with no `schema` key makes the loop append
only the separator (`?` if it is the first query parameter, `&` otherwise)
and continue — no raise, no `name=value` pair, and the parameter's
`example` (arbitrary here) is never consulted.  On a single-parameter
operation the synthesized URL therefore ends in a dangling `?`. -/
theorem c10_schemaless_query_param (api_endpoint name : List Char)
    (ex : Option Val) (first : Bool) (rest : List Parameter) :
    obtain_get_endpoint_loop api_endpoint first
        (⟨strL "query", name, none, ex⟩ :: rest) =
      obtain_get_endpoint_loop
        (api_endpoint ++ (if first then ['?'] else ['&'])) false rest ∧
    obtain_get_endpoint api_endpoint
        ⟨some [⟨strL "query", name, none, ex⟩]⟩ =
      .ok ⟨api_endpoint ++ ['?'], strL "GET", none⟩ := by
  constructor
  · simp [obtain_get_endpoint_loop, query_ne_path]
  · simp [obtain_get_endpoint, obtain_get_endpoint_loop, query_ne_path]
